import Mathlib

/-!
Shallow embedding of the protocol / framing / register-mapping core of the
`inspire-api` repository (files `inspire_api/utils.py`, `inspire_api/serial.py`,
`inspire_api/modbus.py`, `inspire_api/registers.py`, `inspire_api/constants.py`).

Modelling conventions:
* Python `bytes` / lists of byte values are `List Nat`; joint values (numpy
  `int32` after `astype`) are `Int`.
* Python `v & 0xFF` on an arbitrary `int` equals the mathematical
  `v mod 256` (always non-negative), which is Lean's `Int.emod`; Python's
  arithmetic right shift `v >> 8` is floor division by 256, Lean's `Int.fdiv`.
* Fallible code (functions that can raise) returns `Except Unit _`; the sole
  error value stands for the exception (`ValidationError` /
  `CommunicationError`) raised on that path.
* The Modbus transport (`pymodbus` `read_holding_registers` together with the
  `response.isError()` check) is abstracted as a function
  `client : Nat → Nat → Except Unit (List Nat)` mapping (address, count) to
  either the register words or an error.
-/

namespace InspireApi

/-- Constants from `constants.py`: frame and protocol constants. -/
def SERIAL_START_BYTE_1 : Nat := 0xEB

def SERIAL_START_BYTE_2 : Nat := 0x90

def SERIAL_CMD_WRITE : Nat := 0x12

def SERIAL_CMD_READ : Nat := 0x11

def SERIAL_MIN_FRAME_SIZE : Nat := 7

def MODBUS_MAX_REGISTERS_PER_READ : Nat := 125

def NUM_JOINTS : Nat := 6

def MIN_ANGLE : Int := 0

def MAX_ANGLE : Int := 1000

def PLACEHOLDER_VALUE : Int := -1

def BYTE_MASK : Nat := 0xFF

def WORD_MASK : Nat := 0xFFFF

/-- Model of `utils.calculate_checksum`: additive sum of `data[2:]`, masked to 8 bits. -/
def calculate_checksum (data : List Nat) : Nat :=
  (data.drop 2).sum % 256

/-- Model of `utils.int16_to_bytes`: Python `value & 0xFF` is `value mod 256`
(`Int.emod`), and `(value >> 8) & 0xFF` is the arithmetic shift
(floor division by 256, `Int.fdiv`) masked to 8 bits. -/
def int16_to_bytes (value : Int) : Nat × Nat :=
  ((value % 256).toNat, ((Int.fdiv value 256) % 256).toNat)

/-- Model of `utils.bytes_to_int16`: `(low & 0xFF) + ((high & 0xFF) << 8)`;
the Python result is a non-negative `int`, modelled as `Int`. -/
def bytes_to_int16 (low high : Nat) : Int :=
  (((low % 256) + (high % 256) * 256 : Nat) : Int)

/-- numpy `.astype(np.int32)`: modular wrap-around into `[-2^31, 2^31)`. -/
def toInt32 (v : Int) : Int :=
  ((v + 2147483648) % 4294967296) - 2147483648

/-- Model of `utils.validate_joint_values`: flatten/`astype(np.int32)` (the wrap is
modelled by `toInt32`), then reject unless the length is `NUM_JOINTS` and
every element is the placeholder `-1` or lies in `[min_val, max_val]`.
Returns the converted values on success. -/
def validate_joint_values (values : List Int) (min_val max_val : Int) :
    Except Unit (List Int) :=
  let values_flat := values.map toInt32
  if values_flat.length ≠ NUM_JOINTS then
    .error ()
  else if values_flat.any (fun val =>
      val ≠ PLACEHOLDER_VALUE ∧ (val < min_val ∨ val > max_val)) then
    .error ()
  else
    .ok values_flat

/-- Model of `utils.convert_to_modbus_values`: `-1` becomes `0xFFFF`; any other value
keeps its low 16 bits (`value & WORD_MASK`, i.e. `value mod 2^16`). -/
def convert_to_modbus_values (values : List Int) : List Nat :=
  values.map (fun value =>
    if value = PLACEHOLDER_VALUE then 0xFFFF else (value % 65536).toNat)

/-- Model of `utils.convert_to_serial_bytes`: each value contributes its low byte then
its high byte. -/
def convert_to_serial_bytes (values : List Int) : List Nat :=
  values.flatMap (fun value => [(int16_to_bytes value).1, (int16_to_bytes value).2])

/-- Model of `utils.convert_12bytes_to_6values`: fails (`ValidationError`) on fewer than
12 bytes, otherwise decodes six little-endian words from the first 12 bytes. -/
def convert_12bytes_to_6values (bytes_data : List Nat) : Except Unit (List Int) :=
  if bytes_data.length < 12 then
    .error ()
  else
    .ok ((List.range 6).map (fun i =>
      bytes_to_int16 (bytes_data.getD (2 * i) 0) (bytes_data.getD (2 * i + 1) 0)))

/-- Model of the `serial.InspireHandSerial._write_register` frame construction: start bytes,
hand id, `num + 3`, write command, little-endian address, payload, and the
additive checksum over everything from index 2. -/
def build_write_frame (hand_id : Nat) (addr : Nat) (num : Nat) (val : List Nat) :
    List Nat :=
  let frame := [SERIAL_START_BYTE_1, SERIAL_START_BYTE_2, hand_id, num + 3,
    SERIAL_CMD_WRITE, addr &&& 0xFF, (addr >>> 8) &&& 0xFF] ++ val
  frame ++ [calculate_checksum frame]

/-- Value of `registers.REGISTERS_GEN3["ANGLE_SET"]`. -/
def GEN3_ANGLE_SET : Nat := 1486

/-- numpy row-major (`order="C"`) reshape of a flat list into `rows` rows of
`cols` entries: row `r` is `raw[r*cols : r*cols+cols]`. -/
def reshapeRows (raw : List Nat) (rows cols : Nat) : List (List Nat) :=
  (List.range rows).map (fun r => (raw.drop (r * cols)).take cols)

/-- numpy `.T` on a `rows × cols` matrix (dimensions passed explicitly since
the list representation does not carry them): entry `[j][i]` of the result is
entry `[i][j]` of the input. -/
def transposeMatrix (m : List (List Nat)) (rows cols : Nat) : List (List Nat) :=
  (List.range cols).map (fun j => (List.range rows).map (fun i => (m.getD i []).getD j 0))

/-- Model of `utils.reshape_tactile_data`: fails (`ValidationError`) unless
`len(raw) == rows*cols`; palm data is reshaped row-major into a `cols × rows`
matrix and then transposed, finger data is reshaped row-major into
`rows × cols` directly. -/
def reshape_tactile_data (raw : List Nat) (rows cols : Nat) (is_palm : Bool) :
    Except Unit (List (List Nat)) :=
  if raw.length ≠ rows * cols then
    .error ()
  else if is_palm then
    .ok (transposeMatrix (reshapeRows raw cols rows) cols rows)
  else
    .ok (reshapeRows raw rows cols)

/-- The data carried by a successful transport reply (`response.registers`);
`[]` on the error branch, which callers never reach. -/
def okData (e : Except Unit (List Nat)) : List Nat :=
  match e with
  | .ok vs => vs
  | .error _ => []

/-- The `while remaining_count > 0` loop of
`modbus.InspireHandModbus._read_register` (the `count > 125` branch): each
iteration reads `min(remaining, 125)` registers, appends the reply to the
accumulated results, and advances the address by the segment size; a transport
error (`response.isError()`) raises `CommunicationError`, aborting the loop.
Returns the list of `(address, count)` requests actually issued together with
the outcome. -/
def segmentedRead (client : Nat → Nat → Except Unit (List Nat))
    (addr count : Nat) : List (Nat × Nat) × Except Unit (List Nat) :=
  if _h : count = 0 then
    ([], .ok [])
  else
    let segment_count := min count MODBUS_MAX_REGISTERS_PER_READ
    match client addr segment_count with
    | .error e => ([(addr, segment_count)], .error e)
    | .ok segment_results =>
      let rest := segmentedRead client (addr + segment_count) (count - segment_count)
      ((addr, segment_count) :: rest.1,
        rest.2.map (fun tail => segment_results ++ tail))
termination_by count
decreasing_by
  have h125 : MODBUS_MAX_REGISTERS_PER_READ = 125 := rfl
  omega

/-- Model of `modbus.InspireHandModbus._read_register`: a single transport request when
`count <= 125`, the segmented loop otherwise. First component: the requests
issued; second: the returned register values or the raised
`CommunicationError`. -/
def modbus_read_register (client : Nat → Nat → Except Unit (List Nat))
    (address count : Nat) : List (Nat × Nat) × Except Unit (List Nat) :=
  if count ≤ MODBUS_MAX_REGISTERS_PER_READ then
    ([(address, count)], client address count)
  else
    segmentedRead client address count

/-- The sequence of `(address, count)` segment requests the loop issues when
no error occurs (its request plan). -/
def segmentPlan (addr count : Nat) : List (Nat × Nat) :=
  if _h : count = 0 then
    []
  else
    let segment_count := min count MODBUS_MAX_REGISTERS_PER_READ
    (addr, segment_count) :: segmentPlan (addr + segment_count) (count - segment_count)
termination_by count
decreasing_by
  have h125 : MODBUS_MAX_REGISTERS_PER_READ = 125 := rfl
  omega

/-- The full request plan of `_read_register`: one request for small counts,
the loop's plan otherwise. -/
def requestPlan (address count : Nat) : List (Nat × Nat) :=
  if count ≤ MODBUS_MAX_REGISTERS_PER_READ then
    [(address, count)]
  else
    segmentPlan address count

/-- Model of `serial.InspireHandSerial._read6`, after the underlying `_read_register`
returned `val_act`: a shortfall (fewer than 6 bytes) yields `[]` without
raising; otherwise the bytes are returned as-is. -/
def serial_read6_from (val_act : List Nat) : List Nat :=
  if val_act.length < 6 then [] else val_act

/-- Model of `serial.InspireHandSerial._read12`, after the underlying `_read_register`
returned `val`: a shortfall (fewer than 12 bytes) yields `[]` without raising;
otherwise the bytes are decoded by `convert_12bytes_to_6values` (whose
potential `ValidationError` is reflected in the `Except`). -/
def serial_read12_from (val : List Nat) : Except Unit (List Int) :=
  if val.length < 12 then .ok [] else convert_12bytes_to_6values val

/-- Model of `modbus.InspireHandModbus._read6_16bit`, after the underlying
`_read_register` returned `val`: a shortfall (fewer than 6 words) yields `[]`;
otherwise the words are returned as-is. -/
def modbus_read6_16bit_from (val : List Nat) : List Nat :=
  if val.length < 6 then [] else val

/-- Model of `modbus.InspireHandModbus._read6_8bit`, after the underlying
`_read_register` returned `val_act`: a shortfall (fewer than 3 words) yields
`[]`; otherwise each 16-bit word is split into its low byte then high byte. -/
def modbus_read6_8bit_from (val_act : List Nat) : List Nat :=
  if val_act.length < 3 then []
  else val_act.flatMap (fun val => [val &&& 0xFF, (val >>> 8) &&& 0xFF])

/-- Model of the `serial.InspireHandSerial._read_register` response handling, given the
bytes read back (`recv`): nothing received or fewer than the minimum 7 frame
bytes yields `[]`; otherwise `num_received = (recv[3] & 0xFF) - 3` (Python
`int` arithmetic, so possibly negative) and the
`min(num_received, len(recv) - 7)` data bytes starting at offset 7 are
collected (Python's `range` of a negative count iterates zero times, modelled
by `Int.toNat`). -/
def serial_extract_response (recv : List Nat) : List Nat :=
  if recv.length = 0 then
    []
  else if recv.length < SERIAL_MIN_FRAME_SIZE then
    []
  else
    let num_received : Int := ((recv.getD 3 0 &&& 0xFF : Nat) : Int) - 3
    let actual_data_len : Int := min num_received ((recv.length : Int) - 7)
    (List.range actual_data_len.toNat).map (fun i => recv.getD (7 + i) 0)

/-- The 17 Gen4 tactile register entries of `registers.REGISTERS_GEN4`
(name, address, rows, cols), in the iteration order of
`modbus.InspireHandModbus.get_all_tactile_data`. -/
def tactileSensors : List (String × Nat × Nat × Nat) :=
  [("PINKY_TOP_TAC", 3000, 3, 3), ("PINKY_TIP_TAC", 3018, 12, 8),
    ("PINKY_BASE_TAC", 3210, 10, 8), ("RING_TOP_TAC", 3370, 3, 3),
    ("RING_TIP_TAC", 3388, 12, 8), ("RING_BASE_TAC", 3580, 10, 8),
    ("MIDDLE_TOP_TAC", 3740, 3, 3), ("MIDDLE_TIP_TAC", 3758, 12, 8),
    ("MIDDLE_BASE_TAC", 3950, 10, 8), ("INDEX_TOP_TAC", 4110, 3, 3),
    ("INDEX_TIP_TAC", 4128, 12, 8), ("INDEX_BASE_TAC", 4320, 10, 8),
    ("THUMB_TOP_TAC", 4480, 3, 3), ("THUMB_TIP_TAC", 4498, 12, 8),
    ("THUMB_MID_TAC", 4690, 3, 3), ("THUMB_BASE_TAC", 4708, 10, 8),
    ("PALM_TAC", 4900, 8, 14)]

/-- The matrix carried by a successful reshape; `[]` on the error branch,
which the callers guard against by checking the length first. -/
def okFrame (e : Except Unit (List (List Nat))) : List (List Nat) :=
  match e with
  | .ok m => m
  | .error _ => []

/-- The frame `get_all_tactile_data` stores for one sensor entry when its
register read returns without raising: a wrong number of words leaves the
frame empty (the `continue` branch keeps the `np.array([])` default),
otherwise the raw words are reshaped (`is_palm` iff the entry is `PALM_TAC`).
A read that raises is modelled by the `.error` branch (never reached inside a
snapshot, since the exception aborts the whole iteration). -/
def readTactileFrame (client : Nat → Nat → Except Unit (List Nat))
    (s : String × Nat × Nat × Nat) : List (List Nat) :=
  match (modbus_read_register client s.2.1 (s.2.2.1 * s.2.2.2)).2 with
  | .error _ => []
  | .ok raw =>
    if raw.length ≠ s.2.2.1 * s.2.2.2 then []
    else okFrame (reshape_tactile_data raw s.2.2.1 s.2.2.2 (decide (s.1 = "PALM_TAC")))

/-- The sensor loop of `modbus.InspireHandModbus.get_all_tactile_data` (the
Gen4 branch): each entry's `rows*cols` words are read via `_read_register`;
a raised `CommunicationError` propagates (aborting the snapshot), a
wrong-length result leaves that entry's frame empty, and a correct result is
reshaped. -/
def get_all_tactile_data_go (client : Nat → Nat → Except Unit (List Nat)) :
    List (String × Nat × Nat × Nat) →
      Except Unit (List (String × List (List Nat)))
  | [] => .ok []
  | s :: rest =>
    match (modbus_read_register client s.2.1 (s.2.2.1 * s.2.2.2)).2 with
    | .error e => .error e
    | .ok raw =>
      let frame := if raw.length ≠ s.2.2.1 * s.2.2.2 then []
        else okFrame (reshape_tactile_data raw s.2.2.1 s.2.2.2
          (decide (s.1 = "PALM_TAC")))
      (get_all_tactile_data_go client rest).map (fun tail => (s.1, frame) :: tail)

/-- Model of `modbus.InspireHandModbus.get_all_tactile_data` for a Gen4 session,
abstracted over the transport; the snapshot is the list of
(register name, frame) pairs in iteration order. -/
def get_all_tactile_data (client : Nat → Nat → Except Unit (List Nat)) :
    Except Unit (List (String × List (List Nat))) :=
  get_all_tactile_data_go client tactileSensors

/-- A transport in which the read at address 3000 (`PINKY_TOP_TAC`) reports a
Modbus error and every other read succeeds. -/
def clientFailAt3000 : Nat → Nat → Except Unit (List Nat) :=
  fun a c => if a = 3000 then .error () else .ok (List.replicate c 0)

/-- A transport in which the read at address 3000 (`PINKY_TOP_TAC`) succeeds
but returns no words (a short read) and every other read succeeds in full. -/
def clientShortAt3000 : Nat → Nat → Except Unit (List Nat) :=
  fun a c => if a = 3000 then .ok [] else .ok (List.replicate c 0)

end InspireApi

open InspireApi

/-- Helper for the serial round trip: for a value in `[0, 65536)` (in
particular any joint value in `[0, 1000]`), decoding the little-endian byte
pair produced by `int16_to_bytes` recovers the value. -/
theorem bytes_to_int16_int16_to_bytes (x : Int) (h0 : 0 ≤ x) (h1 : x < 65536) :
    bytes_to_int16 (int16_to_bytes x).1 (int16_to_bytes x).2 = x := by
  obtain ⟨n, rfl⟩ := Int.eq_ofNat_of_zero_le h0
  have hn : n < 65536 := by exact_mod_cast h1
  have hf : Int.fdiv (n : Int) 256 = ((n / 256 : Nat) : Int) :=
    (Int.ofNat_fdiv n 256).symm
  unfold bytes_to_int16 int16_to_bytes
  rw [hf]
  have e1 : ((n : Int) % 256).toNat = n % 256 := by omega
  have e2 : (((n / 256 : Nat) : Int) % 256).toNat = n / 256 % 256 := by omega
  rw [e1, e2]
  have : n % 256 % 256 + n / 256 % 256 % 256 * 256 = n := by omega
  rw [this]

/-- C1 counterexample: the claimed frame encodes address 1486 with low byte
`0xAE`, but `1486 = 0x05CE` (`0x05AE` is 1454), so the frame actually built
for hand 1 at Gen3 `ANGLE_SET` differs from the claimed bytes: its address
low byte (index 5) is `0xCE`, not `0xAE`. -/
theorem write_angle_frame_claimed_bytes_wrong :
    build_write_frame 1 GEN3_ANGLE_SET 12
        (convert_to_serial_bytes [500, 500, 500, 500, 500, 0]) ≠
      [0xEB, 0x90, 0x01, 0x0F, 0x12, 0xAE, 0x05, 0xF4, 0x01, 0xF4, 0x01, 0xF4,
        0x01, 0xF4, 0x01, 0xF4, 0x01, 0x00, 0x00, 0x9E] ∧
    (build_write_frame 1 GEN3_ANGLE_SET 12
        (convert_to_serial_bytes [500, 500, 500, 500, 500, 0])).getD 5 0 = 0xCE ∧
    (0xCE : Nat) ≠ 0xAE := by
  refine ⟨by decide, by decide, by decide⟩

/-- C1 (amended): writing joint angles `[500,500,500,500,500,0]` to hand 1 at
Gen3 `ANGLE_SET` (address 1486 = `0x05CE`, low byte `0xCE`, high byte `0x05`)
builds exactly the frame
`EB 90 01 0F 12 CE 05 F4 01 F4 01 F4 01 F4 01 F4 01 00 00` followed by one
checksum byte (`0xBE`) equal to the additive sum mod 256 of the preceding
bytes from index 2 onward. -/
theorem write_angle_frame_bytes :
    build_write_frame 1 GEN3_ANGLE_SET 12
        (convert_to_serial_bytes [500, 500, 500, 500, 500, 0]) =
      [0xEB, 0x90, 0x01, 0x0F, 0x12, 0xCE, 0x05, 0xF4, 0x01, 0xF4, 0x01, 0xF4,
        0x01, 0xF4, 0x01, 0xF4, 0x01, 0x00, 0x00, 0xBE] ∧
    (0xBE : Nat) =
      ([0xEB, 0x90, 0x01, 0x0F, 0x12, 0xCE, 0x05, 0xF4, 0x01, 0xF4, 0x01, 0xF4,
        0x01, 0xF4, 0x01, 0xF4, 0x01, 0x00, 0x00].drop 2).sum % 256 := by
  refine ⟨by decide, by rfl⟩

/-- C2 counterexample: the serial round trip does not hold for the sentinel
`-1`: it is encoded as bytes `FF FF` and decodes to `65535`, not `-1`. -/
theorem serial_roundtrip_fails_on_placeholder :
    convert_12bytes_to_6values (convert_to_serial_bytes [-1, 0, 0, 0, 0, 0]) =
      .ok [65535, 0, 0, 0, 0, 0] ∧
    ([65535, 0, 0, 0, 0, 0] : List Int) ≠ [-1, 0, 0, 0, 0, 0] := by
  refine ⟨by rfl, by decide⟩

/-- C2 (amended): for every 6-element vector whose entries lie in `[0, 1000]`
(the sentinel `-1` excluded), decoding the 12-byte serial encoding returns the
original vector; a sentinel `-1` entry instead decodes to `65535`. -/
theorem serial_roundtrip (v : List Int) (hlen : v.length = 6)
    (hrange : ∀ x ∈ v, 0 ≤ x ∧ x ≤ 1000) :
    convert_12bytes_to_6values (convert_to_serial_bytes v) = .ok v := by
  match v, hlen with
  | [a, b, c, d, e, f], _ =>
    have ha := hrange a (by simp)
    have hb := hrange b (by simp)
    have hc := hrange c (by simp)
    have hd := hrange d (by simp)
    have he := hrange e (by simp)
    have hf := hrange f (by simp)
    have step : convert_12bytes_to_6values (convert_to_serial_bytes [a, b, c, d, e, f]) =
        .ok [bytes_to_int16 (int16_to_bytes a).1 (int16_to_bytes a).2,
          bytes_to_int16 (int16_to_bytes b).1 (int16_to_bytes b).2,
          bytes_to_int16 (int16_to_bytes c).1 (int16_to_bytes c).2,
          bytes_to_int16 (int16_to_bytes d).1 (int16_to_bytes d).2,
          bytes_to_int16 (int16_to_bytes e).1 (int16_to_bytes e).2,
          bytes_to_int16 (int16_to_bytes f).1 (int16_to_bytes f).2] := rfl
    rw [step,
      bytes_to_int16_int16_to_bytes a ha.1 (by omega),
      bytes_to_int16_int16_to_bytes b hb.1 (by omega),
      bytes_to_int16_int16_to_bytes c hc.1 (by omega),
      bytes_to_int16_int16_to_bytes d hd.1 (by omega),
      bytes_to_int16_int16_to_bytes e he.1 (by omega),
      bytes_to_int16_int16_to_bytes f hf.1 (by omega)]

/-- C2 witness: the amended round trip at the concrete vector
`[0, 1, 255, 256, 999, 1000]`. -/
theorem serial_roundtrip_witness :
    convert_12bytes_to_6values (convert_to_serial_bytes [0, 1, 255, 256, 999, 1000]) =
      .ok [0, 1, 255, 256, 999, 1000] :=
  serial_roundtrip [0, 1, 255, 256, 999, 1000] (by decide) (by decide)

/-- C5: for a valid joint vector (each entry `-1` or in `[0, 1000]`), the
Modbus word at index `i` is `0xFFFF` exactly when the joint value is the
sentinel `-1`; every other entry passes through (masked to 16 bits, hence
unchanged for values in `[0, 1000]`). -/
theorem modbus_placeholder_iff (v : List Int)
    (hv : ∀ x ∈ v, x = PLACEHOLDER_VALUE ∨ (MIN_ANGLE ≤ x ∧ x ≤ MAX_ANGLE))
    (i : Nat) (hi : i < v.length) :
    ((convert_to_modbus_values v).getD i 0 = 0xFFFF ↔ v.getD i 0 = -1) ∧
    (v.getD i 0 ≠ -1 → ((convert_to_modbus_values v).getD i 0 : Int) = v.getD i 0) := by
  have hx : v[i] ∈ v := List.getElem_mem hi
  have hgd : v.getD i 0 = v[i] := by
    simp [List.getD_eq_getElem?_getD, List.getElem?_eq_getElem hi]
  have hcd : (convert_to_modbus_values v).getD i 0 =
      (if v[i] = PLACEHOLDER_VALUE then 0xFFFF else (v[i] % 65536).toNat) := by
    unfold convert_to_modbus_values
    simp [List.getD_eq_getElem?_getD, List.getElem?_eq_getElem hi]
  rw [hgd, hcd]
  rcases hv _ hx with h | h
  · rw [h]
    simp [PLACEHOLDER_VALUE]
  · simp only [MIN_ANGLE, MAX_ANGLE] at h
    have hne : ¬(v[i] = PLACEHOLDER_VALUE) := by
      simp only [PLACEHOLDER_VALUE]
      omega
    rw [if_neg hne]
    refine ⟨⟨fun hh => by omega, fun hh => by omega⟩, fun _ => by omega⟩

/-- C5 witness: the theorem applied at `v = [-1, 700, 0, 1000, 3, 2]`,
index 0 (the sentinel) and, via a second application, index 1. -/
theorem modbus_placeholder_iff_witness :
    ((convert_to_modbus_values [-1, 700, 0, 1000, 3, 2]).getD 0 0 = 0xFFFF ∧
      (convert_to_modbus_values [-1, 700, 0, 1000, 3, 2]).getD 1 0 ≠ 0xFFFF) := by
  have h0 := modbus_placeholder_iff [-1, 700, 0, 1000, 3, 2] (by decide) 0 (by decide)
  have h1 := modbus_placeholder_iff [-1, 700, 0, 1000, 3, 2] (by decide) 1 (by decide)
  exact ⟨h0.1.mpr (by decide), fun hh => by have := h1.1.mp hh; exact absurd this (by decide)⟩

/-- C7 counterexample: `validate_joint_values` converts to `int32` *before*
range-checking, so the input element `4294967295` (neither `-1` nor in
`[0, 1000]`) wraps to `-1` and is accepted instead of raising
`ValidationError`. -/
theorem validate_joint_values_accepts_wrapped :
    validate_joint_values [4294967295, 0, 0, 0, 0, 0] MIN_ANGLE MAX_ANGLE =
      .ok [-1, 0, 0, 0, 0, 0] ∧
    (4294967295 : Int) ≠ -1 ∧ ¬(MIN_ANGLE ≤ (4294967295 : Int) ∧
      (4294967295 : Int) ≤ MAX_ANGLE) := by
  refine ⟨by rfl, by decide, by decide⟩

/-- C7 (amended): restricted to inputs whose elements already lie in the
`int32` range (where the `astype(np.int32)` conversion is the identity),
`validate_joint_values` errors on every input whose length is not 6, errors
on every input containing an element that is neither `-1` nor within
`[min_val, max_val]`, and accepts every 6-element input all of whose elements
are `-1` or in range, returning the values unchanged. -/
theorem validate_joint_values_spec (v : List Int) (min_val max_val : Int)
    (hrange : ∀ x ∈ v, -2147483648 ≤ x ∧ x < 2147483648) :
    (v.length ≠ 6 → validate_joint_values v min_val max_val = .error ()) ∧
    ((∃ x ∈ v, x ≠ -1 ∧ (x < min_val ∨ max_val < x)) →
      validate_joint_values v min_val max_val = .error ()) ∧
    (v.length = 6 → (∀ x ∈ v, x = -1 ∨ (min_val ≤ x ∧ x ≤ max_val)) →
      validate_joint_values v min_val max_val = .ok v) := by
  have hid : ∀ x ∈ v, toInt32 x = x := by
    intro x hxv
    have := hrange x hxv
    unfold toInt32
    omega
  have hmap : v.map toInt32 = v := by
    calc v.map toInt32 = v.map id := List.map_congr_left hid
    _ = v := List.map_id v
  refine ⟨?_, ?_, ?_⟩
  · intro h
    unfold validate_joint_values
    simp only [hmap, NUM_JOINTS]
    rw [if_pos (by simpa using h)]
  · rintro ⟨x, hxv, hx1, hx2⟩
    unfold validate_joint_values
    simp only [hmap, NUM_JOINTS]
    by_cases hlen : v.length = 6
    · rw [if_neg (by simp [hlen]), if_pos]
      rw [List.any_eq_true]
      refine ⟨x, hxv, ?_⟩
      simp only [PLACEHOLDER_VALUE, decide_eq_true_eq]
      exact ⟨hx1, by omega⟩
    · rw [if_pos (by simpa using hlen)]
  · intro hlen hall
    unfold validate_joint_values
    simp only [hmap, NUM_JOINTS]
    rw [if_neg (by simp [hlen]), if_neg]
    rw [List.any_eq_true]
    rintro ⟨x, hxv, hx⟩
    simp only [PLACEHOLDER_VALUE, decide_eq_true_eq] at hx
    rcases hall x hxv with h | h
    · exact hx.1 h
    · rcases hx.2 with h2 | h2 <;> omega

/-- C7 witness: the amended theorem applied at concrete inputs: a 3-element
input is rejected, a 6-element input holding `2000` is rejected, and the
all-`(-1)` vector is accepted unchanged. -/
theorem validate_joint_values_spec_witness :
    validate_joint_values [1, 2, 3] 0 1000 = .error () ∧
    validate_joint_values [0, 0, 0, 0, 0, 2000] 0 1000 = .error () ∧
    validate_joint_values [-1, -1, -1, -1, -1, -1] 0 1000 =
      .ok [-1, -1, -1, -1, -1, -1] := by
  refine ⟨?_, ?_, ?_⟩
  · exact (validate_joint_values_spec [1, 2, 3] 0 1000 (by decide)).1 (by decide)
  · exact (validate_joint_values_spec [0, 0, 0, 0, 0, 2000] 0 1000 (by decide)).2.1
      ⟨2000, by decide, by decide, by decide⟩
  · exact (validate_joint_values_spec [-1, -1, -1, -1, -1, -1] 0 1000 (by decide)).2.2
      (by decide) (by decide)

/-- Helper: replacing the element at a position of a list of naturals changes
its sum by removing the old value and adding the new one. -/
theorem sum_set_add (l : List Nat) (i : Nat) (a : Nat) (h : i < l.length) :
    (l.set i a).sum + l.getD i 0 = l.sum + a := by
  induction l generalizing i with
  | nil => simp at h
  | cons x t ih =>
    cases i with
    | zero => simp [List.set]; omega
    | succ n =>
      simp only [List.set, List.sum_cons, List.getD_cons_succ]
      have := ih n (by simpa using h)
      omega

/-- Helper: reading back the second position of a double `set` used to swap
two entries yields the first entry's original value. -/
theorem getD_set_swap_snd (l : List Nat) (i j : Nat) (hj : j < l.length) :
    (l.set i (l.getD j 0)).getD j 0 = l.getD j 0 := by
  by_cases hij : i = j
  · subst hij
    simp [List.getD_eq_getElem?_getD, List.getElem?_set_self hj]
  · simp [List.getD_eq_getElem?_getD, List.getElem?_set_ne hij]

/-- C6 counterexample: the additive checksum is *not* order-sensitive: the
inputs `[0,0,1,2]` and `[0,0,2,1]` differ by swapping the unequal bytes at
positions 2 and 3 yet have the same checksum. -/
theorem checksum_not_order_sensitive :
    calculate_checksum [0, 0, 1, 2] = calculate_checksum [0, 0, 2, 1] ∧
    [0, 0, 1, 2].getD 2 0 ≠ [0, 0, 1, 2].getD 3 0 := by
  refine ⟨by rfl, by decide⟩

/-- C6 (amended): `calculate_checksum` is deterministic (equal inputs give
equal results) and order-INsensitive beyond the header: swapping the bytes at
any two positions at or after index 2 never changes the result (the sum from
index 2 is invariant under the swap). -/
theorem checksum_deterministic_and_swap_invariant (d : List Nat) (i j : Nat)
    (hi2 : 2 ≤ i) (hj2 : 2 ≤ j) (hi : i < d.length) (hj : j < d.length) :
    calculate_checksum ((d.set i (d.getD j 0)).set j (d.getD i 0)) =
      calculate_checksum d ∧
    (∀ d' : List Nat, d = d' → calculate_checksum d = calculate_checksum d') := by
  refine ⟨?_, fun d' hdd => by rw [hdd]⟩
  have hlen : (d.set i (d.getD j 0)).length = d.length := by simp
  have s1 : (d.set i (d.getD j 0)).sum + d.getD i 0 = d.sum + d.getD j 0 :=
    sum_set_add d i (d.getD j 0) hi
  have s2 : ((d.set i (d.getD j 0)).set j (d.getD i 0)).sum +
      (d.set i (d.getD j 0)).getD j 0 = (d.set i (d.getD j 0)).sum + d.getD i 0 :=
    sum_set_add (d.set i (d.getD j 0)) j (d.getD i 0) (by omega)
  have g : (d.set i (d.getD j 0)).getD j 0 = d.getD j 0 := getD_set_swap_snd d i j hj
  have hsum : ((d.set i (d.getD j 0)).set j (d.getD i 0)).sum = d.sum := by omega
  have htake : ((d.set i (d.getD j 0)).set j (d.getD i 0)).take 2 = d.take 2 := by
    rw [List.set_take, List.set_take]
    rw [List.set_eq_of_length_le (by simp; omega),
      List.set_eq_of_length_le (by simp; omega)]
  have split1 := List.sum_take_add_sum_drop ((d.set i (d.getD j 0)).set j (d.getD i 0)) 2
  have split2 := List.sum_take_add_sum_drop d 2
  unfold calculate_checksum
  have : (((d.set i (d.getD j 0)).set j (d.getD i 0)).drop 2).sum = (d.drop 2).sum := by
    rw [htake] at split1
    omega
  rw [this]

/-- C6 witness: the amended theorem applied at `d = [9, 9, 5, 7]`, swapping
positions 2 and 3. -/
theorem checksum_swap_invariant_witness :
    calculate_checksum (([9, 9, 5, 7].set 2 ([9, 9, 5, 7].getD 3 0)).set 3
        ([9, 9, 5, 7].getD 2 0)) = calculate_checksum [9, 9, 5, 7] :=
  (checksum_deterministic_and_swap_invariant [9, 9, 5, 7] 2 3 (by decide) (by decide)
    (by decide) (by decide)).1

/-- Helper: indexing the row-major reshape: entry `[r][c]` is
`raw[r*cols + c]`. -/
theorem reshapeRows_getD (raw : List Nat) (rows cols r c : Nat)
    (hr : r < rows) (hc : c < cols) (_hidx : r * cols + c < raw.length) :
    ((reshapeRows raw rows cols).getD r []).getD c 0 = raw.getD (r * cols + c) 0 := by
  unfold reshapeRows
  simp only [List.getD_eq_getElem?_getD]
  rw [List.getElem?_map, List.getElem?_range hr]
  simp only [Option.map_some', Option.getD_some]
  rw [List.getElem?_take_of_lt hc, List.getElem?_drop]

/-- Helper: indexing the explicit transpose: entry `[r][c]` of
`transposeMatrix m rows cols` is entry `[c][r]` of `m`. -/
theorem transposeMatrix_getD (m : List (List Nat)) (rows cols r c : Nat)
    (hr : r < rows) (hc : c < cols) :
    (((transposeMatrix m cols rows).getD r []).getD c 0) = (m.getD c []).getD r 0 := by
  unfold transposeMatrix
  simp only [List.getD_eq_getElem?_getD]
  rw [List.getElem?_map, List.getElem?_range hr]
  simp only [Option.map_some', Option.getD_some]
  rw [List.getElem?_map, List.getElem?_range hc]
  simp

/-- C4: for a flat input of length `rows*cols`, the non-palm reshape places
`flat[r*cols+c]` at entry `[r][c]` (row-major); the palm reshape (row-major
fill of a `cols × rows` matrix, then transpose) places `flat[c*rows+r]` at
entry `[r][c]`; and for the palm shape `rows=8, cols=14` the two orderings
differ on the same 112-element input `[0, 1, ..., 111]`. -/
theorem reshape_tactile_data_index (raw : List Nat) (rows cols r c : Nat)
    (hlen : raw.length = rows * cols) (hr : r < rows) (hc : c < cols) :
    (∃ m, reshape_tactile_data raw rows cols false = .ok m ∧
      (m.getD r []).getD c 0 = raw.getD (r * cols + c) 0) ∧
    (∃ m, reshape_tactile_data raw rows cols true = .ok m ∧
      (m.getD r []).getD c 0 = raw.getD (c * rows + r) 0) ∧
    (∃ mp mf, reshape_tactile_data (List.range 112) 8 14 true = .ok mp ∧
      reshape_tactile_data (List.range 112) 8 14 false = .ok mf ∧ mp ≠ mf) := by
  have hne : ¬(raw.length ≠ rows * cols) := by omega
  have hidx1 : r * cols + c < raw.length := by
    rw [hlen]
    calc r * cols + c < r * cols + cols := by omega
    _ = (r + 1) * cols := by ring
    _ ≤ rows * cols := Nat.mul_le_mul_right cols hr
  have hidx2 : c * rows + r < raw.length := by
    rw [hlen, Nat.mul_comm rows cols]
    calc c * rows + r < c * rows + rows := by omega
    _ = (c + 1) * rows := by ring
    _ ≤ cols * rows := Nat.mul_le_mul_right rows hc
  refine ⟨?_, ?_, ?_⟩
  · refine ⟨reshapeRows raw rows cols, ?_, ?_⟩
    · unfold reshape_tactile_data
      rw [if_neg hne]
      rfl
    · exact reshapeRows_getD raw rows cols r c hr hc hidx1
  · refine ⟨transposeMatrix (reshapeRows raw cols rows) cols rows, ?_, ?_⟩
    · unfold reshape_tactile_data
      rw [if_neg hne]
      rfl
    · rw [transposeMatrix_getD (reshapeRows raw cols rows) rows cols r c hr hc]
      exact reshapeRows_getD raw cols rows c r hc hr hidx2
  · exact ⟨_, _, rfl, rfl, by decide⟩

/-- C4 witness: the theorem applied at the concrete `10 × 8` finger shape with
`flat = [0, ..., 79]`, entry `[2][5]`, and the palm shape entry derived in the
second conjunct. -/
theorem reshape_tactile_data_index_witness :
    (∃ m, reshape_tactile_data (List.range 80) 10 8 false = .ok m ∧
      (m.getD 2 []).getD 5 0 = (List.range 80).getD (2 * 8 + 5) 0) ∧
    (∃ m, reshape_tactile_data (List.range 80) 10 8 true = .ok m ∧
      (m.getD 2 []).getD 5 0 = (List.range 80).getD (5 * 10 + 2) 0) :=
  ⟨(reshape_tactile_data_index (List.range 80) 10 8 2 5 (by decide) (by decide)
      (by decide)).1,
    (reshape_tactile_data_index (List.range 80) 10 8 2 5 (by decide) (by decide)
      (by decide)).2.1⟩

/-- Helper: every segment in the loop's plan requests between 1 and 125
registers. -/
theorem segmentPlan_mem_bounds (count : Nat) (addr : Nat) (p : Nat × Nat)
    (hp : p ∈ segmentPlan addr count) : 1 ≤ p.2 ∧ p.2 ≤ 125 := by
  induction count using Nat.strong_induction_on generalizing addr with
  | _ count ih =>
    unfold segmentPlan at hp
    by_cases hc : count = 0
    · simp [hc] at hp
    · rw [dif_neg hc] at hp
      have h125 : MODBUS_MAX_REGISTERS_PER_READ = 125 := rfl
      rcases List.mem_cons.mp hp with h | h
      · subst h
        simp only [h125]
        omega
      · exact ih (count - min count MODBUS_MAX_REGISTERS_PER_READ)
          (by omega) _ h

/-- Helper: the head of a non-empty loop plan requests at the loop's starting
address, `min count 125` registers. -/
theorem segmentPlan_head (addr count : Nat) (hc : count ≠ 0) :
    (segmentPlan addr count).head? =
      some (addr, min count MODBUS_MAX_REGISTERS_PER_READ) := by
  unfold segmentPlan
  rw [dif_neg hc]
  rfl

/-- Helper: in the loop's plan, each request's address is the previous
request's address plus the previous request's size. -/
theorem segmentPlan_consecutive (count : Nat) (addr k : Nat)
    (hk : k + 1 < (segmentPlan addr count).length) :
    ((segmentPlan addr count).getD (k + 1) (0, 0)).1 =
      ((segmentPlan addr count).getD k (0, 0)).1 +
        ((segmentPlan addr count).getD k (0, 0)).2 := by
  induction count using Nat.strong_induction_on generalizing addr k with
  | _ count ih =>
    by_cases hc : count = 0
    · rw [hc] at hk
      unfold segmentPlan at hk
      simp at hk
    · have h125 : MODBUS_MAX_REGISTERS_PER_READ = 125 := rfl
      have hstep : segmentPlan addr count =
          (addr, min count MODBUS_MAX_REGISTERS_PER_READ) ::
            segmentPlan (addr + min count MODBUS_MAX_REGISTERS_PER_READ)
              (count - min count MODBUS_MAX_REGISTERS_PER_READ) := by
        conv_lhs => unfold segmentPlan
        rw [dif_neg hc]
      rw [hstep] at hk ⊢
      cases k with
      | zero =>
        simp only [List.getD_cons_succ, List.getD_cons_zero]
        have hlen : (segmentPlan (addr + min count MODBUS_MAX_REGISTERS_PER_READ)
            (count - min count MODBUS_MAX_REGISTERS_PER_READ)).length ≠ 0 := by
          simp only [List.length_cons] at hk
          omega
        have hne : count - min count MODBUS_MAX_REGISTERS_PER_READ ≠ 0 := by
          by_contra hz
          rw [hz] at hlen
          exact hlen (by unfold segmentPlan; simp)
        have hh := segmentPlan_head (addr + min count MODBUS_MAX_REGISTERS_PER_READ)
          (count - min count MODBUS_MAX_REGISTERS_PER_READ) hne
        rcases hne2 : segmentPlan (addr + min count MODBUS_MAX_REGISTERS_PER_READ)
            (count - min count MODBUS_MAX_REGISTERS_PER_READ) with _ | ⟨q, t⟩
        · rw [hne2] at hlen
          simp at hlen
        · rw [hne2] at hh
          simp only [List.head?_cons, Option.some.injEq] at hh
          rw [hh]
          rfl
      | succ n =>
        simp only [List.getD_cons_succ]
        exact ih (count - min count MODBUS_MAX_REGISTERS_PER_READ) (by omega) _ n
          (by simp only [List.length_cons] at hk; omega)

/-- Helper: when every planned request succeeds, the loop issues exactly the
planned requests and returns the concatenation of the replies in plan
(address) order. -/
theorem segmentedRead_success (client : Nat → Nat → Except Unit (List Nat))
    (count addr : Nat)
    (hok : ∀ p ∈ segmentPlan addr count, ∃ vs, client p.1 p.2 = .ok vs) :
    segmentedRead client addr count =
      (segmentPlan addr count,
        .ok ((segmentPlan addr count).flatMap (fun p => okData (client p.1 p.2)))) := by
  induction count using Nat.strong_induction_on generalizing addr with
  | _ count ih =>
    by_cases hc : count = 0
    · subst hc
      unfold segmentedRead segmentPlan
      simp
    · have hplan : segmentPlan addr count =
          (addr, min count MODBUS_MAX_REGISTERS_PER_READ) ::
            segmentPlan (addr + min count MODBUS_MAX_REGISTERS_PER_READ)
              (count - min count MODBUS_MAX_REGISTERS_PER_READ) := by
        conv_lhs => unfold segmentPlan
        rw [dif_neg hc]
      obtain ⟨vs, hvs⟩ := hok _ (by rw [hplan]; exact List.mem_cons_self _ _)
      have hrest := ih (count - min count MODBUS_MAX_REGISTERS_PER_READ)
        (by have : MODBUS_MAX_REGISTERS_PER_READ = 125 := rfl; omega)
        (addr + min count MODBUS_MAX_REGISTERS_PER_READ)
        (fun p hp => hok p (by rw [hplan]; exact List.mem_cons_of_mem _ hp))
      conv_lhs => unfold segmentedRead
      rw [dif_neg hc]
      simp only [hvs, hrest, hplan]
      simp [okData, hvs]
      rfl

/-- Helper: if any planned request errors, the loop raises (first component of
no interest): the whole read returns the error, never partial data. -/
theorem segmentedRead_failure (client : Nat → Nat → Except Unit (List Nat))
    (count addr : Nat)
    (hbad : ∃ p ∈ segmentPlan addr count, client p.1 p.2 = .error ()) :
    (segmentedRead client addr count).2 = .error () := by
  induction count using Nat.strong_induction_on generalizing addr with
  | _ count ih =>
    by_cases hc : count = 0
    · subst hc
      unfold segmentPlan at hbad
      simp at hbad
    · have h125 : MODBUS_MAX_REGISTERS_PER_READ = 125 := rfl
      have hplan : segmentPlan addr count =
          (addr, min count MODBUS_MAX_REGISTERS_PER_READ) ::
            segmentPlan (addr + min count MODBUS_MAX_REGISTERS_PER_READ)
              (count - min count MODBUS_MAX_REGISTERS_PER_READ) := by
        conv_lhs => unfold segmentPlan
        rw [dif_neg hc]
      conv_lhs => unfold segmentedRead
      rw [dif_neg hc]
      rcases hcl : client addr (min count MODBUS_MAX_REGISTERS_PER_READ) with e | vs
      · cases e
        simp only [hcl]
      · rcases hbad with ⟨p, hp, hperr⟩
        rw [hplan] at hp
        rcases List.mem_cons.mp hp with h | h
        · subst h
          rw [hcl] at hperr
          exact absurd hperr (by simp)
        · have hrest := ih (count - min count MODBUS_MAX_REGISTERS_PER_READ)
            (by omega) (addr + min count MODBUS_MAX_REGISTERS_PER_READ) ⟨p, h, hperr⟩
          simp only [hrest, hcl]
          rfl

/-- C3: Modbus holding-register reads of `count` registers at `address`:
a single transport request when `count ≤ 125`; otherwise consecutive
segments of at most 125 registers each, the starting address advancing by the
previous segment's size (in particular 200 registers at 1000 issue exactly
the two reads `(1000, 125)` and `(1125, 75)`), with the segment replies
concatenated in address order; and if any segment's read reports an error the
whole operation raises `CommunicationError` with no partial data returned. -/
theorem modbus_read_register_segmentation
    (client : Nat → Nat → Except Unit (List Nat)) (address count : Nat) :
    (count ≤ 125 → (modbus_read_register client address count).1 = [(address, count)]) ∧
    (∀ p ∈ requestPlan address count, p.2 ≤ 125) ∧
    (∀ k, k + 1 < (requestPlan address count).length →
      ((requestPlan address count).getD (k + 1) (0, 0)).1 =
        ((requestPlan address count).getD k (0, 0)).1 +
          ((requestPlan address count).getD k (0, 0)).2) ∧
    ((∀ p ∈ requestPlan address count, ∃ vs, client p.1 p.2 = .ok vs) →
      modbus_read_register client address count =
        (requestPlan address count,
          .ok ((requestPlan address count).flatMap (fun p => okData (client p.1 p.2))))) ∧
    ((∃ p ∈ requestPlan address count, client p.1 p.2 = .error ()) →
      (modbus_read_register client address count).2 = .error ()) ∧
    requestPlan 1000 200 = [(1000, 125), (1125, 75)] := by
  have h125 : MODBUS_MAX_REGISTERS_PER_READ = 125 := rfl
  have hconcrete : requestPlan 1000 200 = [(1000, 125), (1125, 75)] := by
    have e0 : segmentPlan 1200 0 = [] := by
      unfold segmentPlan
      rfl
    have e1 : segmentPlan 1125 75 = [(1125, 75)] := by
      conv_lhs => unfold segmentPlan
      rw [dif_neg (by norm_num)]
      norm_num [h125, e0]
    have e2 : segmentPlan 1000 200 = (1000, 125) :: segmentPlan 1125 75 := by
      conv_lhs => unfold segmentPlan
      rw [dif_neg (by norm_num)]
      norm_num [h125]
    unfold requestPlan
    rw [if_neg (by rw [h125]; norm_num), e2, e1]
  by_cases hcnt : count ≤ MODBUS_MAX_REGISTERS_PER_READ
  · have hform : modbus_read_register client address count =
        ([(address, count)], client address count) := by
      unfold modbus_read_register
      rw [if_pos hcnt]
    have hplanform : requestPlan address count = [(address, count)] := by
      unfold requestPlan
      rw [if_pos hcnt]
    refine ⟨fun _ => by rw [hform], ?_, ?_, ?_, ?_, hconcrete⟩
    · intro p hp
      rw [hplanform] at hp
      rcases List.mem_singleton.mp hp with rfl
      omega
    · intro k hk
      rw [hplanform] at hk
      simp at hk
    · intro hok
      obtain ⟨vs, hvs⟩ := hok (address, count) (by rw [hplanform]; simp)
      rw [hform, hplanform]
      simp [List.flatMap, okData, hvs]
    · rintro ⟨p, hp, hperr⟩
      rw [hplanform] at hp
      rcases List.mem_singleton.mp hp with rfl
      rw [hform]
      exact hperr
  · have hform : modbus_read_register client address count =
        segmentedRead client address count := by
      unfold modbus_read_register
      rw [if_neg hcnt]
    have hplanform : requestPlan address count = segmentPlan address count := by
      unfold requestPlan
      rw [if_neg hcnt]
    refine ⟨fun hle => absurd hle (by omega), ?_, ?_, ?_, ?_, hconcrete⟩
    · intro p hp
      rw [hplanform] at hp
      exact (segmentPlan_mem_bounds count address p hp).2
    · intro k hk
      rw [hplanform] at hk ⊢
      exact segmentPlan_consecutive count address k hk
    · intro hok
      rw [hplanform] at hok ⊢
      rw [hform]
      exact segmentedRead_success client count address hok
    · intro hbad
      rw [hplanform] at hbad
      rw [hform]
      exact segmentedRead_failure client count address hbad

/-- C3 witness: with an all-succeeding transport returning `count` copies of
the segment's address, reading 200 registers at 1000 issues exactly the two
planned requests and concatenates the two replies in address order. -/
theorem modbus_read_register_segmentation_witness :
    modbus_read_register (fun a c => Except.ok (List.replicate c a)) 1000 200 =
      ([(1000, 125), (1125, 75)],
        .ok (List.replicate 125 1000 ++ List.replicate 75 1125)) := by
  have h := modbus_read_register_segmentation
    (fun a c => Except.ok (List.replicate c a)) 1000 200
  have hplan := h.2.2.2.2.2
  have hok : ∀ p ∈ requestPlan 1000 200,
      ∃ vs, (fun (a c : Nat) => (Except.ok (List.replicate c a) :
        Except Unit (List Nat))) p.1 p.2 = .ok vs :=
    fun p _ => ⟨_, rfl⟩
  have hres := h.2.2.2.1 hok
  rw [hplan] at hres
  simpa [okData] using hres

/-- C9: every per-register typed read helper (serial `_read6`/`_read12`,
Modbus `_read6_16bit`/`_read6_8bit`) returns an empty sequence, without
raising, whenever the underlying register read succeeds but yields fewer
values than required (6 resp. 12 bytes for serial, 6 resp. 3 words for
Modbus), and returns the full converted sequence otherwise. -/
theorem typed_read_helpers_shortfall (val : List Nat) :
    (val.length < 6 → serial_read6_from val = []) ∧
    (6 ≤ val.length → serial_read6_from val = val) ∧
    (val.length < 12 → serial_read12_from val = .ok []) ∧
    (12 ≤ val.length → serial_read12_from val = convert_12bytes_to_6values val ∧
      ∃ vs, convert_12bytes_to_6values val = .ok vs) ∧
    (∃ vs, serial_read12_from val = .ok vs) ∧
    (val.length < 6 → modbus_read6_16bit_from val = []) ∧
    (6 ≤ val.length → modbus_read6_16bit_from val = val) ∧
    (val.length < 3 → modbus_read6_8bit_from val = []) ∧
    (3 ≤ val.length → modbus_read6_8bit_from val =
      val.flatMap (fun v => [v &&& 0xFF, (v >>> 8) &&& 0xFF])) := by
  refine ⟨fun h => ?_, fun h => ?_, fun h => ?_, fun h => ?_, ?_, fun h => ?_,
    fun h => ?_, fun h => ?_, fun h => ?_⟩
  · unfold serial_read6_from
    rw [if_pos h]
  · unfold serial_read6_from
    rw [if_neg (by omega)]
  · unfold serial_read12_from
    rw [if_pos h]
  · unfold serial_read12_from convert_12bytes_to_6values
    rw [if_neg (by omega), if_neg (by omega)]
    exact ⟨rfl, _, rfl⟩
  · unfold serial_read12_from convert_12bytes_to_6values
    by_cases h : val.length < 12
    · rw [if_pos h]
      exact ⟨[], rfl⟩
    · rw [if_neg h, if_neg h]
      exact ⟨_, rfl⟩
  · unfold modbus_read6_16bit_from
    rw [if_pos h]
  · unfold modbus_read6_16bit_from
    rw [if_neg (by omega)]
  · unfold modbus_read6_8bit_from
    rw [if_pos h]
  · unfold modbus_read6_8bit_from
    rw [if_neg (by omega)]

/-- C9 witness: the theorem applied at the short read `[1, 2, 3]` (empty
results for `_read6`/`_read12`/`_read6_16bit`, full byte-split for
`_read6_8bit`) and at the full 12-byte read `[0,...,0]`. -/
theorem typed_read_helpers_shortfall_witness :
    serial_read6_from [1, 2, 3] = [] ∧
    serial_read12_from [1, 2, 3] = .ok [] ∧
    modbus_read6_16bit_from [1, 2, 3] = [] ∧
    modbus_read6_8bit_from [1, 2, 3] = [1, 0, 2, 0, 3, 0] ∧
    serial_read12_from [0, 0, 0, 0, 0, 0, 0, 0, 0, 0, 0, 0] =
      convert_12bytes_to_6values [0, 0, 0, 0, 0, 0, 0, 0, 0, 0, 0, 0] := by
  have h3 := typed_read_helpers_shortfall [1, 2, 3]
  have h12 := typed_read_helpers_shortfall [0, 0, 0, 0, 0, 0, 0, 0, 0, 0, 0, 0]
  refine ⟨h3.1 (by decide), h3.2.2.1 (by decide), h3.2.2.2.2.2.1 (by decide), ?_, ?_⟩
  · rw [h3.2.2.2.2.2.2.2.2 (by decide)]
    decide
  · exact (h12.2.2.2.1 (by decide)).1

/-- C10: serial response extraction is total and in-bounds: for every received
buffer of at least 7 bytes, the returned list has length
`max 0 (min ((recv[3] & 0xFF) - 3) (len(recv) - 7))`, equals the data bytes
taken from offset 7 (so only positions `7..len-1` are read), and a declared
length field below 3 (negative declared data count) yields the empty list
rather than an out-of-range access. -/
theorem serial_extract_response_spec (recv : List Nat) (h7 : 7 ≤ recv.length) :
    (serial_extract_response recv).length =
      (max 0 (min (((recv.getD 3 0 &&& 0xFF : Nat) : Int) - 3)
        ((recv.length : Int) - 7))).toNat ∧
    serial_extract_response recv =
      (recv.drop 7).take (serial_extract_response recv).length ∧
    ((recv.getD 3 0 &&& 0xFF) < 3 → serial_extract_response recv = []) ∧
    (serial_extract_response recv).length ≤ recv.length - 7 := by
  have hne0 : ¬(recv.length = 0) := by omega
  have hnlt : ¬(recv.length < SERIAL_MIN_FRAME_SIZE) := by
    simp only [SERIAL_MIN_FRAME_SIZE]
    omega
  have hform : serial_extract_response recv =
      (List.range (min (((recv.getD 3 0 &&& 0xFF : Nat) : Int) - 3)
        ((recv.length : Int) - 7)).toNat).map (fun i => recv.getD (7 + i) 0) := by
    unfold serial_extract_response
    rw [if_neg hne0, if_neg hnlt]
  have hlen : (serial_extract_response recv).length =
      (min (((recv.getD 3 0 &&& 0xFF : Nat) : Int) - 3)
        ((recv.length : Int) - 7)).toNat := by
    rw [hform]
    simp
  have hAle : (min (((recv.getD 3 0 &&& 0xFF : Nat) : Int) - 3)
      ((recv.length : Int) - 7)).toNat ≤ recv.length - 7 := by
    have h := min_le_right (((recv.getD 3 0 &&& 0xFF : Nat) : Int) - 3)
      ((recv.length : Int) - 7)
    omega
  refine ⟨?_, ?_, ?_, ?_⟩
  · rw [hlen]
    omega
  · rw [hlen, hform]
    apply List.ext_getElem?
    intro i
    by_cases hi : i < (min (((recv.getD 3 0 &&& 0xFF : Nat) : Int) - 3)
        ((recv.length : Int) - 7)).toNat
    · rw [List.getElem?_map, List.getElem?_range hi,
        List.getElem?_take_of_lt hi, List.getElem?_drop]
      have h7i : 7 + i < recv.length := by omega
      rw [List.getElem?_eq_getElem h7i]
      simp [List.getD_eq_getElem?_getD, List.getElem?_eq_getElem h7i]
    · rw [List.getElem?_eq_none (by simpa using Nat.le_of_not_lt hi),
        List.getElem?_eq_none]
      simp only [List.length_take, List.length_drop]
      omega
  · intro hlt
    rw [hform]
    have hz : (min (((recv.getD 3 0 &&& 0xFF : Nat) : Int) - 3)
        ((recv.length : Int) - 7)).toNat = 0 := by
      have h := min_le_left (((recv.getD 3 0 &&& 0xFF : Nat) : Int) - 3)
        ((recv.length : Int) - 7)
      omega
    rw [hz]
    rfl
  · rw [hlen]
    exact hAle

/-- C10 witness: the theorem applied at the concrete 8-byte buffer
`[EB, 90, 01, 02, 11, CE, 05, 42]`, whose declared length field `recv[3] = 2`
is below 3: the extraction returns `[]`. -/
theorem serial_extract_response_spec_witness :
    serial_extract_response [0xEB, 0x90, 0x01, 0x02, 0x11, 0xCE, 0x05, 0x42] = [] :=
  (serial_extract_response_spec [0xEB, 0x90, 0x01, 0x02, 0x11, 0xCE, 0x05, 0x42]
    (by decide)).2.2.1 (by decide)

/-- Helper: when every sensor's register read returns without raising, the
snapshot loop yields one (name, frame) entry per sensor, each frame computed
by `readTactileFrame` (empty on a wrong-length read, reshaped otherwise). -/
theorem get_all_go_success (client : Nat → Nat → Except Unit (List Nat))
    (ss : List (String × Nat × Nat × Nat))
    (hok : ∀ s ∈ ss, ∃ vs,
      (modbus_read_register client s.2.1 (s.2.2.1 * s.2.2.2)).2 = .ok vs) :
    get_all_tactile_data_go client ss =
      .ok (ss.map (fun s => (s.1, readTactileFrame client s))) := by
  induction ss with
  | nil => rfl
  | cons s rest ih =>
    obtain ⟨vs, hvs⟩ := hok s (List.mem_cons_self _ _)
    have hrest := ih (fun p hp => hok p (List.mem_cons_of_mem _ hp))
    unfold get_all_tactile_data_go
    rw [hvs, hrest]
    simp only [Except.map, List.map_cons]
    congr 2
    unfold readTactileFrame
    rw [hvs]

/-- Helper: if any sensor's register read raises, the whole snapshot loop
propagates the exception instead of returning a (partial) snapshot. -/
theorem get_all_go_failure (client : Nat → Nat → Except Unit (List Nat))
    (ss : List (String × Nat × Nat × Nat))
    (hbad : ∃ s ∈ ss,
      (modbus_read_register client s.2.1 (s.2.2.1 * s.2.2.2)).2 = .error ()) :
    get_all_tactile_data_go client ss = .error () := by
  induction ss with
  | nil => simp at hbad
  | cons s rest ih =>
    unfold get_all_tactile_data_go
    rcases hr : (modbus_read_register client s.2.1 (s.2.2.1 * s.2.2.2)).2 with e | vs
    · cases e
      rfl
    · rcases hbad with ⟨p, hp, hperr⟩
      rcases List.mem_cons.mp hp with rfl | hmem
      · rw [hr] at hperr
        exact absurd hperr (by simp)
      · rw [ih ⟨p, hmem, hperr⟩]
        rfl

/-- C8 counterexample: with a transport whose read of `PINKY_TOP_TAC`
(address 3000) reports a Modbus error while every other read would succeed,
`get_all_tactile_data` raises `CommunicationError` instead of returning a
partial snapshot with that frame empty and the remaining 16 sensors read. -/
theorem get_all_tactile_data_aborts_on_failed_read :
    get_all_tactile_data clientFailAt3000 = .error () ∧
    (∀ snap, get_all_tactile_data clientFailAt3000 ≠ .ok snap) ∧
    (∀ c, clientFailAt3000 3370 c = .ok (List.replicate c 0)) := by
  refine ⟨rfl, ?_, fun c => rfl⟩
  intro snap h
  rw [show get_all_tactile_data clientFailAt3000 = .error () from rfl] at h
  exact Except.noConfusion h

/-- C8 (amended): for every Gen4 session, `get_all_tactile_data` tolerates
*short* reads per sensor — when every register read returns without raising,
the snapshot holds one frame per sensor, empty exactly where the read's word
count was wrong and reshaped otherwise — but a read that *raises*
(`CommunicationError` from a Modbus error) aborts the whole snapshot; no
partial snapshot is returned in that case. -/
theorem get_all_tactile_data_abort_or_skip
    (client : Nat → Nat → Except Unit (List Nat)) :
    ((∀ s ∈ tactileSensors, ∃ vs,
        (modbus_read_register client s.2.1 (s.2.2.1 * s.2.2.2)).2 = .ok vs) →
      get_all_tactile_data client =
        .ok (tactileSensors.map (fun s => (s.1, readTactileFrame client s)))) ∧
    ((∃ s ∈ tactileSensors,
        (modbus_read_register client s.2.1 (s.2.2.1 * s.2.2.2)).2 = .error ()) →
      get_all_tactile_data client = .error ()) :=
  ⟨fun hok => get_all_go_success client tactileSensors hok,
    fun hbad => get_all_go_failure client tactileSensors hbad⟩

/-- C8 witness: with a transport that answers the `PINKY_TOP_TAC` read
(address 3000) with a short (empty) reply and every other read in full, the
amended theorem yields a snapshot of 17 frames in which the pinky-top frame is
empty while e.g. the ring-top frame (index 3) is a reshaped 3×3 matrix. -/
theorem get_all_tactile_data_partial_witness :
    ∃ snap, get_all_tactile_data clientShortAt3000 = .ok snap ∧
      snap.getD 0 ("", [[1]]) = ("PINKY_TOP_TAC", []) ∧
      (snap.getD 3 ("", [])).2 = [[0, 0, 0], [0, 0, 0], [0, 0, 0]] ∧
      snap.length = 17 := by
  have hok : ∀ s ∈ tactileSensors, ∃ vs,
      (modbus_read_register clientShortAt3000 s.2.1 (s.2.2.1 * s.2.2.2)).2 = .ok vs := by
    intro s hs
    simp only [tactileSensors, List.mem_cons, List.not_mem_nil, or_false] at hs
    rcases hs with rfl | rfl | rfl | rfl | rfl | rfl | rfl | rfl | rfl | rfl | rfl |
      rfl | rfl | rfl | rfl | rfl | rfl <;> exact ⟨_, rfl⟩
  have hsnap := (get_all_tactile_data_abort_or_skip clientShortAt3000).1 hok
  refine ⟨_, hsnap, ?_, ?_, ?_⟩ <;> decide
